import Mathlib

/-!
Verification of the JSON-file document store of the repository
(`src/storage/jsonStore.ts`, record model `src/models/user.ts`).

The store keeps an in-memory `Map<string, User>` (the authoritative index),
a backing JSON file that is fully rewritten by `persist`, and a
promise-chain write queue (`enqueueWrite`).  We embed the store shallowly:

* `User` mirrors the `User` type of `models/user.ts` (string fields,
  timestamps named `created_at` / `updated_at`).
* The JS `Map` is an insertion-ordered association list (`UMap`); `mapSet`
  replaces in place when the key is present (JS `Map.set` keeps the original
  insertion position) and appends otherwise; `values` is `Map.values()` in
  insertion order.
* File I/O is the external boundary.  `FileText` abstracts the outcomes of
  `fs.readFile` + `JSON.parse` seen by `load`: the file can be absent
  (ENOENT), unreadable (any other read error, rethrown), empty (the
  `if (!data) return` branch), present but not valid JSON (`JSON.parse`
  throws, rethrown), or a JSON array of user records.  A successful
  `persist` writes `JSON.stringify` of the current values; its JSON value
  is modelled by `persistJson` / `userToJson`.
* `fs.writeFile` either succeeds or throws; the parameter
  `wr : Option String` of each mutation gives that outcome (`none` =
  success, `some msg` = the thrown error), mirroring that the store itself
  does not control it.
* The promise chain `writeQueue = writeQueue.then(action)` is embedded two
  ways: `Store.queue : Option String` is the settled state of the chain as
  seen by sequential callers (`none` = fulfilled, `some msg` = rejected
  with the write error `msg`; `.then` on a rejected promise skips the
  action and adopts the rejection), and `runQueue` replays a whole list of
  enqueued actions through the chain, returning every caller's handle, the
  final file state and the trace of actions that actually ran.
-/

namespace JsonStore

/-- Record type persisted by the store (`models/user.ts`).  Note the
timestamp fields are named `created_at` and `updated_at` in the source. -/
structure User where
  id : String
  name : String
  email : String
  created_at : String
  updated_at : String
deriving DecidableEq, Repr

/-- The in-memory index `Map<string, User>` as an insertion-ordered
association list. -/
abbrev UMap := List (String × User)

/-- `map.has(k)`. -/
def mapHas (m : UMap) (k : String) : Bool :=
  m.any (fun p => p.1 == k)

/-- `map.get(k)`: value of the (unique) entry with key `k`. -/
def mapGet (m : UMap) (k : String) : Option User :=
  match m with
  | [] => none
  | p :: rest => if p.1 == k then some p.2 else mapGet rest k

/-- `map.set(k, v)`: replace in place if the key is present (JS maps keep
the original insertion position), append otherwise. -/
def mapSet (m : UMap) (k : String) (v : User) : UMap :=
  if mapHas m k then m.map (fun p => if p.1 == k then (p.1, v) else p)
  else m ++ [(k, v)]

/-- `map.delete(k)`. -/
def mapDeleteKey (m : UMap) (k : String) : UMap :=
  m.filter (fun p => !(p.1 == k))

/-- `Array.from(map.values())` in insertion order. -/
def values (m : UMap) : List User :=
  m.map (fun p => p.2)

/-- Outcome of reading and parsing the backing file, as observed by
`load` (`readFile` + `JSON.parse`). -/
inductive FileText
  | absent
  | unreadable (msg : String)
  | emptyText
  | malformed
  | stored (users : List User)
deriving DecidableEq, Repr

/-- Errors surfaced by the store: `UserNotFoundError`, `UserExistsError`,
and the rethrown I/O and parse failures. -/
inductive StoreError
  | userNotFound
  | userExists
  | readFailed (msg : String)
  | parseFailed
  | writeFailed (msg : String)
deriving DecidableEq, Repr

/-- The `StoreState` of `jsonStore.ts`: the users map, the backing file,
and the settled state of the `writeQueue` promise chain (`none` =
fulfilled, `some msg` = rejected with write error `msg`). -/
structure Store where
  users : UMap
  file : FileText
  queue : Option String
deriving DecidableEq, Repr

/-- What a successful `persist` writes: the serialized array of the
current values. -/
def persistFile (m : UMap) : FileText :=
  FileText.stored (values m)

/-- `enqueueWrite(() => persist())`, awaited, for a sequential caller:
`writeQueue = writeQueue.then(action)`.  On a rejected chain the action is
skipped and the returned handle adopts the earlier rejection; on a
fulfilled chain the persist runs with outcome `wr`. -/
def enqueueWrite (wr : Option String) (s : Store) : Except StoreError Unit × Store :=
  match s.queue with
  | some msg => (Except.error (StoreError.writeFailed msg), s)
  | none =>
    match wr with
    | none => (Except.ok (), ⟨s.users, persistFile s.users, none⟩)
    | some msg => (Except.error (StoreError.writeFailed msg), ⟨s.users, s.file, some msg⟩)

/-- `create(user)`: reject on duplicate email before any mutation,
otherwise set and enqueue a persist. -/
def create (u : User) (wr : Option String) (s : Store) : Except StoreError Unit × Store :=
  if (values s.users).any (fun v => v.email == u.email) then
    (Except.error StoreError.userExists, s)
  else
    enqueueWrite wr ⟨mapSet s.users u.id u, s.file, s.queue⟩

/-- `update(user)`: not-found check, then duplicate-email check excluding
the record's own id, then set and enqueue a persist. -/
def update (u : User) (wr : Option String) (s : Store) : Except StoreError Unit × Store :=
  if !(mapHas s.users u.id) then
    (Except.error StoreError.userNotFound, s)
  else if s.users.any (fun p => p.2.email == u.email && !(p.1 == u.id)) then
    (Except.error StoreError.userExists, s)
  else
    enqueueWrite wr ⟨mapSet s.users u.id u, s.file, s.queue⟩

/-- `delete(id)`: not-found check, then remove and enqueue a persist. -/
def delete (id : String) (wr : Option String) (s : Store) : Except StoreError Unit × Store :=
  if !(mapHas s.users id) then
    (Except.error StoreError.userNotFound, s)
  else
    enqueueWrite wr ⟨mapDeleteKey s.users id, s.file, s.queue⟩

/-- `getAll()`: synchronous snapshot of the index. -/
def getAll (s : Store) : List User :=
  values s.users

/-- `getById(id)`: synchronous lookup, `UserNotFoundError` when absent. -/
def getById (id : String) (s : Store) : Except StoreError User :=
  match mapGet s.users id with
  | some u => Except.ok u
  | none => Except.error StoreError.userNotFound

/-- `new Map(users.map(user => [user.id, user]))`. -/
def buildMap (us : List User) : UMap :=
  us.foldl (fun acc u => mapSet acc u.id u) []

/-- `load()`: absent and empty files leave the collection as constructed;
read and parse failures are rethrown; a stored array repopulates the map
keyed by `user.id`. -/
def load (f : FileText) (m : UMap) : Except StoreError UMap :=
  match f with
  | FileText.absent => Except.ok m
  | FileText.unreadable msg => Except.error (StoreError.readFailed msg)
  | FileText.emptyText => Except.ok m
  | FileText.malformed => Except.error StoreError.parseFailed
  | FileText.stored us => Except.ok (buildMap us)

/-- `init()`: `mkdir -p` of the parent directory (external, not modelled)
followed by `load()` into the empty map of the constructor. -/
def init (f : FileText) : Except StoreError Store :=
  match load f [] with
  | Except.ok m => Except.ok ⟨m, f, none⟩
  | Except.error e => Except.error e

/-! JSON values, for the persisted file format (`JSON.stringify(users, null, 2)`). -/

/-- JSON values. -/
inductive Json
  | str (s : String)
  | num (n : Int)
  | bool (b : Bool)
  | null
  | arr (elems : List Json)
  | obj (fields : List (String × Json))

/-- The JSON object `JSON.stringify` produces for one `User` record:
keys in property order `id`, `name`, `email`, `created_at`, `updated_at`. -/
def userToJson (u : User) : Json :=
  Json.obj [("id", Json.str u.id), ("name", Json.str u.name), ("email", Json.str u.email),
    ("created_at", Json.str u.created_at), ("updated_at", Json.str u.updated_at)]

/-- The JSON value of the whole persisted file: the array of serialized
records. -/
def persistJson (us : List User) : Json :=
  Json.arr (us.map userToJson)

/-- First field with the given key in a JSON object body. -/
def jsonLookup (fs : List (String × Json)) (k : String) : Option Json :=
  match fs with
  | [] => none
  | p :: rest => if p.1 == k then some p.2 else jsonLookup rest k

/-- Key lookup on a JSON value (objects only). -/
def jsonObjLookup (j : Json) (k : String) : Option Json :=
  match j with
  | Json.obj fs => jsonLookup fs k
  | _ => none

/-- Whether an optional JSON value is a string. -/
def isStr (o : Option Json) : Bool :=
  match o with
  | some (Json.str _) => true
  | _ => false

/-- A JSON object with string values under the record keys actually used
by the source: `id`, `name`, `email`, `created_at`, `updated_at`. -/
def userObjShape (j : Json) : Bool :=
  isStr (jsonObjLookup j "id") && isStr (jsonObjLookup j "name") &&
    isStr (jsonObjLookup j "email") && isStr (jsonObjLookup j "created_at") &&
    isStr (jsonObjLookup j "updated_at")

/-! The write-serialization queue as a chain of `.then` continuations. -/

/-- One enqueued action: given the current file state, it either succeeds
with a new file state or rejects with an error message (the persist
closure rethrows the `fs.writeFile` error). -/
structure QAction where
  run : FileText → Except String FileText

/-- The persist action enqueued by a mutation, capturing the users map it
will serialize; `wr` is the `fs.writeFile` outcome. -/
def persistAction (m : UMap) (wr : Option String) : QAction :=
  ⟨fun _ =>
    match wr with
    | none => Except.ok (persistFile m)
    | some msg => Except.error msg⟩

/-- Replay of the promise chain over a list of enqueued actions, starting
at index `i` with file state `f` and settled chain state `q`.  Returns the
handle returned to each enqueuer (in enqueue order), the final file state,
and the indices of the actions that actually executed, in execution order.
`p.then(action)` runs `action` only if `p` is fulfilled; a rejected `p`
skips `action` and forwards the rejection. -/
def runQueue : List QAction → Nat → FileText → Except String Unit →
    List (Except String Unit) × FileText × List Nat
  | [], _, f, _ => ([], f, [])
  | a :: rest, i, f, q =>
    match q with
    | Except.error e =>
      let r := runQueue rest (i + 1) f (Except.error e)
      (Except.error e :: r.1, r.2.1, r.2.2)
    | Except.ok _ =>
      match a.run f with
      | Except.ok f1 =>
        let r := runQueue rest (i + 1) f1 (Except.ok ())
        (Except.ok () :: r.1, r.2.1, i :: r.2.2)
      | Except.error e =>
        let r := runQueue rest (i + 1) f (Except.error e)
        (Except.error e :: r.1, r.2.1, i :: r.2.2)

/-- Number of enqueued actions that actually execute when the chain starts
fulfilled: everything up to and including the first failing action. -/
def execCount : List QAction → FileText → Nat
  | [], _ => 0
  | a :: rest, f =>
    match a.run f with
    | Except.ok f1 => execCount rest f1 + 1
    | Except.error _ => 1

/-- Outcome each caller's handle reports: its own action's outcome up to
and including the first failure; after a failure, every later handle
reports that first failure. -/
def handlesSpec : List QAction → FileText → List (Except String Unit)
  | [], _ => []
  | a :: rest, f =>
    match a.run f with
    | Except.ok f1 => Except.ok () :: handlesSpec rest f1
    | Except.error e => Except.error e :: rest.map (fun _ => Except.error e)

/-! Sample records used by concrete witnesses and counterexamples. -/

/-- Sample record. -/
def aliceU : User :=
  ⟨"u1", "Alice", "alice@x.com", "2024-01-01T00:00:00.000Z", "2024-01-01T00:00:00.000Z"⟩

/-- Sample record. -/
def bobU : User :=
  ⟨"u2", "Bob", "bob@x.com", "2024-01-02T00:00:00.000Z", "2024-01-02T00:00:00.000Z"⟩

/-! Basic theorems for the startup path. -/

/-- C7: initialize() succeeds with an empty collection when the backing
file is absent, and fails -- aborting startup -- when the file is present
but unreadable or its contents are malformed. -/
theorem init_startup (msg : String) :
    init FileText.absent = Except.ok (Store.mk [] FileText.absent none) ∧
    init (FileText.unreadable msg) = Except.error (StoreError.readFailed msg) ∧
    init FileText.malformed = Except.error StoreError.parseFailed :=
  ⟨rfl, rfl, rfl⟩

/-- C9: init() on an existing file whose contents read as the empty string
succeeds with an empty collection, exactly like an absent file. -/
theorem init_empty_file :
    init FileText.emptyText = Except.ok (Store.mk [] FileText.emptyText none) ∧
    getAll (Store.mk [] FileText.emptyText none) = [] ∧
    (init FileText.emptyText).map Store.users = (init FileText.absent).map Store.users :=
  ⟨rfl, rfl, rfl⟩

/-! The promise-chain queue: execution order, exactly-once, and the effect
of a rejected chain. -/

theorem runQueue_rejected (acts : List QAction) (i : Nat) (f : FileText) (e : String) :
    runQueue acts i f (Except.error e) = (acts.map (fun _ => Except.error e), f, []) := by
  induction acts generalizing i with
  | nil => rfl
  | cons a rest ih => simp [runQueue, ih]

theorem runQueue_handles (acts : List QAction) (i : Nat) (f : FileText) :
    (runQueue acts i f (Except.ok ())).1 = handlesSpec acts f := by
  induction acts generalizing i f with
  | nil => rfl
  | cons a rest ih =>
    simp only [runQueue, handlesSpec]
    cases h : a.run f with
    | ok f1 => simp [h, ih]
    | error e => simp [h, runQueue_rejected]

theorem runQueue_file (acts : List QAction) (i : Nat) (f : FileText) :
    (runQueue acts i f (Except.ok ())).2.1 =
      (match acts with
        | [] => f
        | a :: rest =>
          match a.run f with
          | Except.ok f1 => (runQueue rest (i + 1) f1 (Except.ok ())).2.1
          | Except.error _ => f) := by
  cases acts with
  | nil => rfl
  | cons a rest =>
    simp only [runQueue]
    cases h : a.run f with
    | ok f1 => simp [h]
    | error e => simp [h, runQueue_rejected]

theorem runQueue_trace (acts : List QAction) (i : Nat) (f : FileText) :
    (runQueue acts i f (Except.ok ())).2.2 =
      (List.range (execCount acts f)).map (fun n => n + i) := by
  induction acts generalizing i f with
  | nil => rfl
  | cons a rest ih =>
    simp only [runQueue, execCount]
    cases h : a.run f with
    | ok f1 =>
      simp only [h, ih, List.range_succ_eq_map, List.map_cons, List.map_map, Nat.zero_add]
      apply congrArg
      apply List.map_congr_left
      intro n _
      simp [Function.comp, Nat.succ_eq_add_one]
      omega
    | error e =>
      simp [h, runQueue_rejected, List.range_succ_eq_map]

/-- C1 (amended): starting from a fulfilled chain, the enqueued persist
actions execute one at a time, in exactly the order enqueued, each at most
once, but only up to and including the first failing action (the trace of
executed actions is the index range of that prefix); each caller's awaited
handle reports its own action's outcome as long as every earlier action
succeeded, while from the first failure on, every later action is skipped
and every later handle reports that first failure instead of its own
action's outcome. -/
theorem chain_execution (acts : List QAction) (f : FileText) :
    (runQueue acts 0 f (Except.ok ())).1 = handlesSpec acts f ∧
    (runQueue acts 0 f (Except.ok ())).2.2 = List.range (execCount acts f) ∧
    execCount acts f ≤ acts.length := by
  refine ⟨runQueue_handles acts 0 f, ?_, ?_⟩
  · have h := runQueue_trace acts 0 f
    simpa using h
  · induction acts generalizing f with
    | nil => simp [execCount]
    | cons a rest ih =>
      simp only [execCount, List.length_cons]
      cases h : a.run f with
      | ok f1 =>
        simp only [h]
        have := ih f1
        omega
      | error e =>
        simp only [h]
        omega

/-- C1 counterexample: two persist actions are enqueued on a fulfilled
chain; the first fails (`fs.writeFile` throws "disk full") and the second,
run by itself, would succeed.  The claim predicts the second action still
executes and its caller's handle reports the second action's own (successful)
outcome.  In fact the second action never runs (the execution trace is
`[0]` and the file still lacks every record), and the second caller's
handle reports the first action's failure.  The same poisoning is visible
through the facade: after `create aliceU` fails to persist, a following
`create bobU` whose own write would succeed returns the first write's
error and leaves the backing file untouched. -/
theorem chain_failure_counterexample :
    (persistAction [("u1", aliceU), ("u2", bobU)] none).run FileText.absent =
      Except.ok (FileText.stored [aliceU, bobU]) ∧
    (runQueue [persistAction [("u1", aliceU)] (some "disk full"),
        persistAction [("u1", aliceU), ("u2", bobU)] none] 0 FileText.absent (Except.ok ())).1 =
      [Except.error "disk full", Except.error "disk full"] ∧
    (runQueue [persistAction [("u1", aliceU)] (some "disk full"),
        persistAction [("u1", aliceU), ("u2", bobU)] none] 0 FileText.absent (Except.ok ())).2.2 =
      [0] ∧
    (runQueue [persistAction [("u1", aliceU)] (some "disk full"),
        persistAction [("u1", aliceU), ("u2", bobU)] none] 0 FileText.absent (Except.ok ())).2.1 =
      FileText.absent ∧
    (create bobU none ((create aliceU (some "disk full")
        (Store.mk [] FileText.absent none)).2)).1 =
      Except.error (StoreError.writeFailed "disk full") ∧
    ((create bobU none ((create aliceU (some "disk full")
        (Store.mk [] FileText.absent none)).2)).2).file = FileText.absent :=
  ⟨rfl, rfl, rfl, rfl, rfl, rfl⟩

/-! Lemmas about the association-list map. -/

theorem mapGet_replace_self (m : UMap) (k : String) (v : User) (h : mapHas m k = true) :
    mapGet (m.map (fun p => if p.1 == k then (p.1, v) else p)) k = some v := by
  induction m with
  | nil => simp [mapHas] at h
  | cons p rest ih =>
    by_cases hp : (p.1 == k) = true
    · simp [mapGet, hp]
    · have hr : mapHas rest k = true := by
        simp only [mapHas, List.any_cons] at h
        simpa [hp, mapHas] using h
      simp only [List.map_cons, if_neg hp, mapGet]
      exact ih hr

theorem mapGet_append_self (m : UMap) (k : String) (v : User) (h : mapHas m k = false) :
    mapGet (m ++ [(k, v)]) k = some v := by
  induction m with
  | nil => simp [mapGet]
  | cons p rest ih =>
    simp only [mapHas, List.any_cons, Bool.or_eq_false_iff] at h
    simp only [List.cons_append, mapGet]
    rw [if_neg (by simp [h.1])]
    exact ih (by simpa [mapHas] using h.2)

theorem mapGet_mapSet_self (m : UMap) (k : String) (v : User) :
    mapGet (mapSet m k v) k = some v := by
  unfold mapSet
  by_cases h : mapHas m k = true
  · rw [if_pos h]
    exact mapGet_replace_self m k v h
  · rw [if_neg h]
    exact mapGet_append_self m k v (by simpa using h)

theorem mapGet_some_mem (m : UMap) (k : String) (v : User) (h : mapGet m k = some v) :
    v ∈ values m := by
  induction m with
  | nil => simp [mapGet] at h
  | cons p rest ih =>
    by_cases hp : (p.1 == k) = true
    · simp only [mapGet, if_pos hp, Option.some.injEq] at h
      simp [values, h]
    · simp only [mapGet, if_neg hp] at h
      have := ih h
      simp only [values, List.map_cons, List.mem_cons]
      right
      simpa [values] using this

theorem mapGet_of_mem (m : UMap) (k : String) (v : User)
    (hnd : (m.map (fun p => p.1)).Nodup) (hmem : (k, v) ∈ m) :
    mapGet m k = some v := by
  induction m with
  | nil => simp at hmem
  | cons p rest ih =>
    simp only [List.map_cons, List.nodup_cons] at hnd
    rcases List.mem_cons.mp hmem with h1 | h2
    · rw [← h1]
      simp [mapGet]
    · have hk : k ∈ rest.map (fun p => p.1) := List.mem_map.mpr ⟨(k, v), h2, rfl⟩
      have hpk : (p.1 == k) = false := by
        simp only [beq_eq_false_iff_ne, ne_eq]
        intro e
        rw [e] at hnd
        exact hnd.1 hk
      simp only [mapGet, hpk, Bool.false_eq_true, if_false]
      exact ih hnd.2 h2

theorem mapHas_of_mapGet (m : UMap) (k : String) (v : User) (h : mapGet m k = some v) :
    mapHas m k = true := by
  induction m with
  | nil => simp [mapGet] at h
  | cons p rest ih =>
    by_cases hp : (p.1 == k) = true
    · simp [mapHas, hp]
    · simp only [mapGet, if_neg hp] at h
      simp [mapHas, hp, List.any_cons]
      have := ih h
      simpa [mapHas] using this

theorem mapGet_mapDeleteKey_self (m : UMap) (k : String) :
    mapGet (mapDeleteKey m k) k = none := by
  induction m with
  | nil => rfl
  | cons p rest ih =>
    by_cases hp : (p.1 == k) = true
    · simpa [mapDeleteKey, List.filter_cons, hp] using ih
    · simp only [mapDeleteKey, List.filter_cons, hp] at ih ⊢
      simp only [Bool.not_false, if_pos trivial, mapGet, if_neg hp]
      simpa [mapDeleteKey] using ih

theorem values_length_mapSet_of_has (m : UMap) (k : String) (v : User)
    (h : mapHas m k = true) :
    (values (mapSet m k v)).length = (values m).length := by
  simp [mapSet, h, values]

/-! The store invariant: keys equal record ids, keys are distinct, emails
are distinct. -/

/-- Invariant of the in-memory index: every key equals its record's `id`,
keys are pairwise distinct (it is a map), and the uniqueness invariant on
the secondary key `email` holds. -/
def Inv (m : UMap) : Prop :=
  (∀ p ∈ m, p.1 = p.2.id) ∧ (m.map (fun p => p.1)).Nodup ∧
    (m.map (fun p => p.2.email)).Nodup

theorem inv_nil : Inv [] :=
  ⟨fun p hp => absurd hp (List.not_mem_nil p), List.nodup_nil, List.nodup_nil⟩

theorem emails_set_nodup (m : UMap) (u : User)
    (hk : (m.map (fun p => p.1)).Nodup)
    (he : (m.map (fun p => p.2.email)).Nodup)
    (H : ∀ p ∈ m, p.2.email = u.email → p.1 = u.id) :
    ((m.map (fun p => if p.1 == u.id then (p.1, u) else p)).map
      (fun p => p.2.email)).Nodup := by
  induction m with
  | nil => simp
  | cons p rest ih =>
    simp only [List.map_cons, List.nodup_cons] at hk he ⊢
    refine ⟨?_, ih hk.2 he.2 (fun q hq hmail => H q (List.mem_cons_of_mem p hq) hmail)⟩
    intro hmem
    rw [List.mem_map] at hmem
    obtain ⟨q0, hq0, heq⟩ := hmem
    rw [List.mem_map] at hq0
    obtain ⟨q, hq, rfl⟩ := hq0
    by_cases hp : (p.1 == u.id) = true
    · have hpu : p.1 = u.id := by simpa using hp
      by_cases hqc : (q.1 == u.id) = true
      · have hqu : q.1 = u.id := by simpa using hqc
        apply hk.1
        rw [hpu, ← hqu]
        exact List.mem_map.mpr ⟨q, hq, rfl⟩
      · have h1 : q.2.email = u.email := by simpa [hp, hqc] using heq
        have h2 := H q (List.mem_cons_of_mem p hq) h1
        simp [h2] at hqc
    · have hne : p.2.email ≠ u.email := by
        intro hmail
        have := H p (List.mem_cons_self p rest) hmail
        simp [this] at hp
      by_cases hqc : (q.1 == u.id) = true
      · have h1 : u.email = p.2.email := by simpa [hp, hqc] using heq
        exact hne h1.symm
      · have h1 : q.2.email = p.2.email := by simpa [hp, hqc] using heq
        exact he.1 (List.mem_map.mpr ⟨q, hq, h1⟩)

theorem inv_mapSet (m : UMap) (u : User)
    (H : ∀ p ∈ m, p.2.email = u.email → p.1 = u.id)
    (h : Inv m) : Inv (mapSet m u.id u) := by
  obtain ⟨h1, h2, h3⟩ := h
  unfold mapSet
  by_cases hc0 : mapHas m u.id = true
  case neg =>
    rw [if_neg hc0]
    have hc : ∀ x ∈ m, ¬(x.1 == u.id) = true := by
      have := (Bool.not_eq_true _).mp hc0
      simpa [mapHas, List.any_eq_false] using this
    refine ⟨?_, ?_, ?_⟩
    · intro p hp
      rcases List.mem_append.mp hp with hm | hm
      · exact h1 p hm
      · simp only [List.mem_singleton] at hm
        rw [hm]
    · have hid : u.id ∉ m.map (fun p => p.1) := by
        intro hmem
        rw [List.mem_map] at hmem
        obtain ⟨q, hq, hqe⟩ := hmem
        exact absurd (by simpa using hqe) (by simpa using hc q hq)
      simp [List.nodup_append, h2, hid]
    · have hm : u.email ∉ m.map (fun p => p.2.email) := by
        intro hmem
        rw [List.mem_map] at hmem
        obtain ⟨q, hq, hqe⟩ := hmem
        have hqid := H q hq hqe
        exact absurd hqid (by simpa using hc q hq)
      simp [List.nodup_append, h3, hm]
  case pos =>
    rw [if_pos hc0]
    refine ⟨?_, ?_, emails_set_nodup m u h2 h3 H⟩
    · intro p hp
      rw [List.mem_map] at hp
      obtain ⟨q, hq, rfl⟩ := hp
      by_cases hqc : (q.1 == u.id) = true
      · simp only [if_pos hqc]
        simpa using hqc
      · simp only [if_neg hqc]
        exact h1 q hq
    · have hkeys : (m.map (fun p => if p.1 == u.id then (p.1, u) else p)).map
          (fun p => p.1) = m.map (fun p => p.1) := by
        rw [List.map_map]
        apply List.map_congr_left
        intro q _
        by_cases hqc : q.1 = u.id
        · simp [hqc]
        · simp [hqc]
      rw [hkeys]
      exact h2

theorem inv_mapDeleteKey (m : UMap) (k : String) (h : Inv m) : Inv (mapDeleteKey m k) := by
  obtain ⟨h1, h2, h3⟩ := h
  have hsub : (mapDeleteKey m k).Sublist m := List.filter_sublist m
  refine ⟨fun p hp => h1 p (hsub.subset hp), ?_, ?_⟩
  · exact h2.sublist (hsub.map (fun p => p.1))
  · exact h3.sublist (hsub.map (fun p => p.2.email))

/-! How each operation transforms the index. -/

theorem enqueueWrite_users (wr : Option String) (s : Store) :
    (enqueueWrite wr s).2.users = s.users := by
  obtain ⟨us, f, q⟩ := s
  cases q <;> cases wr <;> rfl

theorem create_users (u : User) (wr : Option String) (s : Store) :
    (create u wr s).2.users =
      if (values s.users).any (fun v => v.email == u.email) then s.users
      else mapSet s.users u.id u := by
  unfold create
  by_cases h : ((values s.users).any (fun v => v.email == u.email)) = true
  · rw [if_pos h, if_pos h]
  · rw [if_neg h, if_neg h]
    exact enqueueWrite_users wr _

theorem update_users (u : User) (wr : Option String) (s : Store) :
    (update u wr s).2.users =
      if !(mapHas s.users u.id) then s.users
      else if s.users.any (fun p => p.2.email == u.email && !(p.1 == u.id)) then s.users
      else mapSet s.users u.id u := by
  unfold update
  by_cases h1 : (!(mapHas s.users u.id)) = true
  · rw [if_pos h1, if_pos h1]
  · rw [if_neg h1, if_neg h1]
    by_cases h2 : (s.users.any (fun p => p.2.email == u.email && !(p.1 == u.id))) = true
    · rw [if_pos h2, if_pos h2]
    · rw [if_neg h2, if_neg h2]
      exact enqueueWrite_users wr _

theorem delete_users (id : String) (wr : Option String) (s : Store) :
    (delete id wr s).2.users =
      if !(mapHas s.users id) then s.users else mapDeleteKey s.users id := by
  unfold delete
  by_cases h : (!(mapHas s.users id)) = true
  · rw [if_pos h, if_pos h]
  · rw [if_neg h, if_neg h]
    exact enqueueWrite_users wr _

/-! Reachable states and preservation of the invariant. -/

/-- Store states reachable from `init()` on an absent or empty backing
file by any sequence of `create` / `update` / `delete` calls (with
arbitrary write outcomes); reads do not change state. -/
inductive Reachable : Store → Prop
  | init_absent (s : Store) : init FileText.absent = Except.ok s → Reachable s
  | init_empty (s : Store) : init FileText.emptyText = Except.ok s → Reachable s
  | step_create (u : User) (wr : Option String) (s : Store) :
      Reachable s → Reachable (create u wr s).2
  | step_update (u : User) (wr : Option String) (s : Store) :
      Reachable s → Reachable (update u wr s).2
  | step_delete (id : String) (wr : Option String) (s : Store) :
      Reachable s → Reachable (delete id wr s).2

theorem reachable_inv (s : Store) (h : Reachable s) : Inv s.users := by
  induction h with
  | init_absent s hs =>
    have h0 := hs
    simp only [init, load] at h0
    injection h0 with h1
    rw [← h1]
    exact inv_nil
  | init_empty s hs =>
    have h0 := hs
    simp only [init, load] at h0
    injection h0 with h1
    rw [← h1]
    exact inv_nil
  | step_create u wr s hr ih =>
    rw [create_users]
    by_cases hc : ((values s.users).any (fun v => v.email == u.email)) = true
    · rw [if_pos hc]
      exact ih
    · rw [if_neg hc]
      refine inv_mapSet _ _ ?_ ih
      intro p hp hmail
      have hc1 : ∀ v ∈ values s.users, ¬(v.email == u.email) = true := by
        have hc0 := (Bool.not_eq_true _).mp hc
        simpa [List.any_eq_false] using hc0
      exact absurd hmail (by simpa using hc1 p.2 (List.mem_map.mpr ⟨p, hp, rfl⟩))
  | step_update u wr s hr ih =>
    rw [update_users]
    by_cases h1 : (!(mapHas s.users u.id)) = true
    · rw [if_pos h1]
      exact ih
    · rw [if_neg h1]
      by_cases h2 : (s.users.any (fun p => p.2.email == u.email && !(p.1 == u.id))) = true
      · rw [if_pos h2]
        exact ih
      · rw [if_neg h2]
        refine inv_mapSet _ _ ?_ ih
        intro p hp hmail
        have h20 := (Bool.not_eq_true _).mp h2
        rw [List.any_eq_false] at h20
        have h21 := h20 p hp
        by_contra hne
        apply h21
        simp [hmail, hne]
  | step_delete id wr s hr ih =>
    rw [delete_users]
    by_cases h1 : (!(mapHas s.users id)) = true
    · rw [if_pos h1]
      exact ih
    · rw [if_neg h1]
      exact inv_mapDeleteKey _ _ ih

/-- C2: after initializing on an empty or absent backing file and any
sequence of facade operations, any two distinct records returned by
listAll (getAll) have different email (uniqueKey) values. -/
theorem listAll_unique_email (s : Store) (h : Reachable s) :
    List.Pairwise (fun a b => a.email ≠ b.email) (getAll s) := by
  have hinv : (s.users.map (fun p => p.2.email)).Pairwise (fun a b => a ≠ b) :=
    (reachable_inv s h).2.2
  rw [List.pairwise_map] at hinv
  show List.Pairwise _ (s.users.map (fun p => p.2))
  rw [List.pairwise_map]
  exact hinv

/-- C2 witness: a concrete reachable state (init on an absent file, then
create aliceU, then create bobU) whose listAll output has pairwise
distinct emails, by listAll_unique_email. -/
theorem listAll_unique_email_witness :
    List.Pairwise (fun a b => a.email ≠ b.email)
      (getAll ((create bobU none ((create aliceU none
        (Store.mk [] FileText.absent none)).2)).2)) :=
  listAll_unique_email _
    (Reachable.step_create bobU none _
      (Reachable.step_create aliceU none _ (Reachable.init_absent _ rfl)))

/-! Characterization of a successful create. -/

theorem create_ok (u : User) (wr : Option String) (s s1 : Store)
    (h : create u wr s = (Except.ok (), s1)) :
    ((values s.users).any (fun v => v.email == u.email)) = false ∧
    s.queue = none ∧ wr = none ∧
    s1 = Store.mk (mapSet s.users u.id u) (persistFile (mapSet s.users u.id u)) none := by
  obtain ⟨us, f, q⟩ := s
  unfold create at h
  by_cases hc : ((values us).any (fun v => v.email == u.email)) = true
  · rw [if_pos hc] at h
    simp at h
  · rw [if_neg hc] at h
    unfold enqueueWrite at h
    cases q with
    | some msg => simp at h
    | none =>
      cases wr with
      | some msg => simp at h
      | none =>
        refine ⟨(Bool.not_eq_true _).mp hc, rfl, rfl, ?_⟩
        have h2 := congrArg Prod.snd h
        exact h2.symm

/-! Sample stores for the concrete witnesses. -/

/-- Sample two-record store with a fulfilled write chain. -/
def storeAB : Store :=
  ⟨[("u1", aliceU), ("u2", bobU)], FileText.stored [aliceU, bobU], none⟩

/-- Candidate with a fresh id but aliceU's email. -/
def eveU : User :=
  ⟨"u9", "Eve", "alice@x.com", "2024-02-01T00:00:00.000Z", "2024-02-01T00:00:00.000Z"⟩

/-- Update of bobU that tries to take aliceU's email. -/
def bobDup : User :=
  ⟨"u2", "Bob", "alice@x.com", "2024-01-02T00:00:00.000Z", "2024-02-01T00:00:00.000Z"⟩

/-- Fresh third record. -/
def carolU : User :=
  ⟨"u3", "Carol", "carol@x.com", "2024-03-01T00:00:00.000Z", "2024-03-01T00:00:00.000Z"⟩

/-- Update of bobU to a fresh email. -/
def bobFresh : User :=
  ⟨"u2", "Bobby", "bobby@x.com", "2024-01-02T00:00:00.000Z", "2024-03-01T00:00:00.000Z"⟩

/-- Replacement record reusing aliceU's id with a fresh email. -/
def aliceV2 : User :=
  ⟨"u1", "Alice", "alice2@x.com", "2024-01-01T00:00:00.000Z", "2024-03-01T00:00:00.000Z"⟩

/-- C3: a create or update that fails with UserExistsError leaves the
whole store state exactly as it was: the index is unchanged (nothing
inserted or replaced, so listAll is unchanged), the file is unchanged,
and no persist action is enqueued (the queue is unchanged). -/
theorem conflict_no_mutation (s : Store) (u : User) (wr : Option String) :
    ((create u wr s).1 = Except.error StoreError.userExists → (create u wr s).2 = s) ∧
    ((update u wr s).1 = Except.error StoreError.userExists → (update u wr s).2 = s) := by
  obtain ⟨us, f, q⟩ := s
  constructor
  · intro h
    unfold create at h ⊢
    by_cases hc : ((values us).any (fun v => v.email == u.email)) = true
    · rw [if_pos hc]
    · rw [if_neg hc] at h ⊢
      unfold enqueueWrite at h
      cases q <;> cases wr <;> simp at h
  · intro h
    unfold update at h ⊢
    by_cases h1 : (!(mapHas us u.id)) = true
    · rw [if_pos h1]
    · rw [if_neg h1] at h ⊢
      by_cases h2 : (us.any (fun p => p.2.email == u.email && !(p.1 == u.id))) = true
      · rw [if_pos h2]
      · rw [if_neg h2] at h ⊢
        unfold enqueueWrite at h
        cases q <;> cases wr <;> simp at h

/-- C3 witness: in the concrete two-record store, a create reusing
aliceU's email and an update moving bobU onto aliceU's email both fail
with UserExistsError and leave the state unchanged, by
conflict_no_mutation. -/
theorem conflict_no_mutation_witness :
    (create eveU none storeAB).2 = storeAB ∧
    (update bobDup none storeAB).2 = storeAB :=
  ⟨(conflict_no_mutation storeAB eveU none).1 rfl,
   (conflict_no_mutation storeAB bobDup none).2 rfl⟩

/-- C4: when the persist action enqueued by a create, update, or delete
fails, the operation returns the persistence failure to its caller, but
the in-memory index retains the already-applied mutation: the created or
updated record is still returned by getById and present in listAll, and
the deleted record is still gone. -/
theorem persist_failure_keeps_mutation (s : Store) (u : User) (i msg : String) :
    (s.queue = none → (∀ v ∈ getAll s, v.email ≠ u.email) →
      (create u (some msg) s).1 = Except.error (StoreError.writeFailed msg) ∧
      getById u.id (create u (some msg) s).2 = Except.ok u ∧
      u ∈ getAll (create u (some msg) s).2) ∧
    (s.queue = none → mapHas s.users u.id = true →
      (∀ p ∈ s.users, p.2.email = u.email → p.1 = u.id) →
      (update u (some msg) s).1 = Except.error (StoreError.writeFailed msg) ∧
      getById u.id (update u (some msg) s).2 = Except.ok u) ∧
    (s.queue = none → mapHas s.users i = true →
      (delete i (some msg) s).1 = Except.error (StoreError.writeFailed msg) ∧
      getById i (delete i (some msg) s).2 = Except.error StoreError.userNotFound) := by
  obtain ⟨us, f, q⟩ := s
  refine ⟨?_, ?_, ?_⟩
  · intro hq hfresh
    cases hq
    have hc : ((values us).any (fun v => v.email == u.email)) = false := by
      rw [List.any_eq_false]
      intro v hv
      simp [hfresh v hv]
    unfold create
    rw [if_neg (by simp [hc])]
    refine ⟨rfl, ?_, ?_⟩
    · show getById u.id (Store.mk (mapSet us u.id u) f (some msg)) = Except.ok u
      simp [getById, mapGet_mapSet_self]
    · show u ∈ values (mapSet us u.id u)
      exact mapGet_some_mem _ _ _ (mapGet_mapSet_self us u.id u)
  · intro hq hhas hmail
    cases hq
    have hc : (us.any (fun p => p.2.email == u.email && !(p.1 == u.id))) = false := by
      rw [List.any_eq_false]
      intro p hp
      by_cases he : p.2.email = u.email
      · simp [he, hmail p hp he]
      · simp [he]
    unfold update
    rw [if_neg (by simp [hhas]), if_neg (by simp [hc])]
    refine ⟨rfl, ?_⟩
    show getById u.id (Store.mk (mapSet us u.id u) f (some msg)) = Except.ok u
    simp [getById, mapGet_mapSet_self]
  · intro hq hhas
    cases hq
    unfold delete
    rw [if_neg (by simp [hhas])]
    refine ⟨rfl, ?_⟩
    show getById i (Store.mk (mapDeleteKey us i) f (some msg)) =
      Except.error StoreError.userNotFound
    simp [getById, mapGet_mapDeleteKey_self]

/-- C4 witness: on the concrete two-record store with a write that throws
"disk full", creating carolU, renaming bobU to a fresh email, and deleting
aliceU each return the write failure while the index retains the mutation,
by persist_failure_keeps_mutation. -/
theorem persist_failure_keeps_mutation_witness :
    ((create carolU (some "disk full") storeAB).1 =
        Except.error (StoreError.writeFailed "disk full") ∧
      getById carolU.id (create carolU (some "disk full") storeAB).2 = Except.ok carolU ∧
      carolU ∈ getAll (create carolU (some "disk full") storeAB).2) ∧
    ((update bobFresh (some "disk full") storeAB).1 =
        Except.error (StoreError.writeFailed "disk full") ∧
      getById bobFresh.id (update bobFresh (some "disk full") storeAB).2 =
        Except.ok bobFresh) ∧
    ((delete "u1" (some "disk full") storeAB).1 =
        Except.error (StoreError.writeFailed "disk full") ∧
      getById "u1" (delete "u1" (some "disk full") storeAB).2 =
        Except.error StoreError.userNotFound) :=
  ⟨(persist_failure_keeps_mutation storeAB carolU "u1" "disk full").1 rfl (by decide),
   (persist_failure_keeps_mutation storeAB bobFresh "u1" "disk full").2.1 rfl rfl (by decide),
   (persist_failure_keeps_mutation storeAB bobFresh "u1" "disk full").2.2 rfl rfl⟩

/-- C5: after create(x) returns successfully, an immediately following
getById(x.id) returns exactly x (the caller-visible record, id and
timestamps included) and x is in listAll, even though only the in-memory
index changed; moreover getById and getAll depend only on the in-memory
index, never on the backing file or the write queue. -/
theorem create_read_after_write (s s1 : Store) (u : User) (wr : Option String)
    (h : create u wr s = (Except.ok (), s1)) :
    getById u.id s1 = Except.ok u ∧ u ∈ getAll s1 ∧
    (∀ i us f q f1 q1, getById i (Store.mk us f q) = getById i (Store.mk us f1 q1) ∧
      getAll (Store.mk us f q) = getAll (Store.mk us f1 q1)) := by
  obtain ⟨-, -, -, hs1⟩ := create_ok u wr s s1 h
  subst hs1
  refine ⟨?_, ?_, fun i us f q f1 q1 => ⟨rfl, rfl⟩⟩
  · simp [getById, mapGet_mapSet_self]
  · show u ∈ values (mapSet s.users u.id u)
    exact mapGet_some_mem _ _ _ (mapGet_mapSet_self s.users u.id u)

/-- C5 witness: creating aliceU in the freshly initialized empty store
succeeds and the stated read-after-write facts hold, by
create_read_after_write. -/
theorem create_read_after_write_witness :
    getById aliceU.id (Store.mk [(aliceU.id, aliceU)] (FileText.stored [aliceU]) none) =
        Except.ok aliceU ∧
    aliceU ∈ getAll (Store.mk [(aliceU.id, aliceU)] (FileText.stored [aliceU]) none) ∧
    (∀ i us f q f1 q1, getById i (Store.mk us f q) = getById i (Store.mk us f1 q1) ∧
      getAll (Store.mk us f q) = getAll (Store.mk us f1 q1)) :=
  create_read_after_write (Store.mk [] FileText.absent none)
    (Store.mk [(aliceU.id, aliceU)] (FileText.stored [aliceU]) none) aliceU none rfl

/-! Reloading what persist wrote. -/

theorem buildMap_go (us : List User) (acc : UMap)
    (hdisj : ∀ u ∈ us, mapHas acc u.id = false)
    (hnd : (us.map (fun u => u.id)).Nodup) :
    us.foldl (fun a u => mapSet a u.id u) acc = acc ++ us.map (fun u => (u.id, u)) := by
  induction us generalizing acc with
  | nil => simp
  | cons u rest ih =>
    simp only [List.foldl_cons, List.map_cons]
    have hset : mapSet acc u.id u = acc ++ [(u.id, u)] := by
      unfold mapSet
      rw [if_neg (by simp [hdisj u (List.mem_cons_self u rest)])]
    rw [hset]
    simp only [List.map_cons, List.nodup_cons] at hnd
    rw [ih (acc ++ [(u.id, u)]) ?_ hnd.2]
    · rw [List.append_assoc, List.singleton_append]
    · intro v hv
      have h1 : mapHas acc v.id = false := hdisj v (List.mem_cons_of_mem u hv)
      have h2 : u.id ≠ v.id := by
        intro e
        exact hnd.1 (by rw [e]; exact List.mem_map.mpr ⟨v, hv, rfl⟩)
      simp [mapHas, List.any_append, List.any_cons, h1, beq_eq_false_iff_ne, h2]
      simpa [mapHas] using h1

theorem buildMap_values (m : UMap) (h : Inv m) : buildMap (values m) = m := by
  obtain ⟨h1, h2, h3⟩ := h
  have hids : (values m).map (fun u => u.id) = m.map (fun p => p.1) := by
    unfold values
    rw [List.map_map]
    apply List.map_congr_left
    intro p hp
    exact (h1 p hp).symm
  unfold buildMap
  rw [buildMap_go (values m) [] (fun u _ => rfl) (by rw [hids]; exact h2)]
  simp only [List.nil_append]
  unfold values
  rw [List.map_map]
  have he : ∀ p ∈ m, ((fun u : User => (u.id, u)) ∘ (fun p : String × User => p.2)) p = p := by
    intro p hp
    exact Prod.ext ((h1 p hp).symm) rfl
  rw [List.map_congr_left he]
  simp

/-- C6: after a successful create (whose awaited persist completed), a
second store initialized over the same backing file returns the created
record under its id, and in fact every record of the collection
round-trips through persist followed by load. -/
theorem persist_load_roundtrip (s s1 : Store) (u : User)
    (hre : Reachable s)
    (h : create u none s = (Except.ok (), s1)) :
    ∃ s2, init s1.file = Except.ok s2 ∧ getById u.id s2 = Except.ok u ∧
      ∀ v ∈ getAll s1, getById v.id s2 = Except.ok v := by
  obtain ⟨hc, -, -, hs1⟩ := create_ok u none s s1 h
  have hinv1 : Inv (mapSet s.users u.id u) := by
    refine inv_mapSet _ _ ?_ (reachable_inv s hre)
    intro p hp hmail
    rw [List.any_eq_false] at hc
    have := hc p.2 (List.mem_map.mpr ⟨p, hp, rfl⟩)
    exact absurd hmail (by simpa using this)
  subst hs1
  have hbuild : buildMap (values (mapSet s.users u.id u)) = mapSet s.users u.id u :=
    buildMap_values _ hinv1
  refine ⟨Store.mk (buildMap (values (mapSet s.users u.id u)))
    (FileText.stored (values (mapSet s.users u.id u))) none, rfl, ?_, ?_⟩
  · simp [getById, hbuild, mapGet_mapSet_self]
  · intro v hv
    obtain ⟨p, hp, rfl⟩ := List.mem_map.mp hv
    have hid := hinv1.1 p hp
    have hget : mapGet (mapSet s.users u.id u) p.2.id = some p.2 := by
      rw [← hid]
      exact mapGet_of_mem _ _ _ hinv1.2.1 (by rw [Prod.mk.eta]; exact hp)
    simp [getById, hbuild, hget]

/-- C6 witness: create aliceU in the freshly initialized empty store, then
re-initialize a store over the resulting backing file; aliceU round-trips,
by persist_load_roundtrip. -/
theorem persist_load_roundtrip_witness :
    ∃ s2, init (Store.mk [(aliceU.id, aliceU)] (FileText.stored [aliceU]) none).file =
        Except.ok s2 ∧
      getById aliceU.id s2 = Except.ok aliceU ∧
      ∀ v ∈ getAll (Store.mk [(aliceU.id, aliceU)] (FileText.stored [aliceU]) none),
        getById v.id s2 = Except.ok v :=
  persist_load_roundtrip (Store.mk [] FileText.absent none)
    (Store.mk [(aliceU.id, aliceU)] (FileText.stored [aliceU]) none) aliceU
    (Reachable.init_absent _ rfl) rfl

/-- C10: store-level create never checks whether the id is already in the
index: with an existing record under u.id and an email fresh for the whole
collection, create succeeds, silently replaces the old record (getById now
returns the new one), and the collection size is unchanged. -/
theorem create_overwrites_id (s : Store) (u old : User)
    (hq : s.queue = none)
    (hid : mapGet s.users u.id = some old)
    (hfresh : ∀ v ∈ getAll s, v.email ≠ u.email) :
    (create u none s).1 = Except.ok () ∧
    getById u.id (create u none s).2 = Except.ok u ∧
    (getAll (create u none s).2).length = (getAll s).length := by
  obtain ⟨us, f, q⟩ := s
  cases hq
  have hc : ((values us).any (fun v => v.email == u.email)) = false := by
    rw [List.any_eq_false]
    intro v hv
    simp [hfresh v hv]
  have hhas := mapHas_of_mapGet us u.id old hid
  unfold create
  rw [if_neg (by simp [hc])]
  refine ⟨rfl, ?_, ?_⟩
  · show getById u.id (Store.mk (mapSet us u.id u) (persistFile (mapSet us u.id u)) none) =
      Except.ok u
    simp [getById, mapGet_mapSet_self]
  · show (values (mapSet us u.id u)).length = (values us).length
    exact values_length_mapSet_of_has us u.id u hhas

/-- C10 witness: storeAB holds aliceU under "u1"; creating aliceV2 (same
id "u1", fresh email) succeeds, replaces aliceU, and keeps the collection
size at 2, by create_overwrites_id. -/
theorem create_overwrites_id_witness :
    (create aliceV2 none storeAB).1 = Except.ok () ∧
    getById aliceV2.id (create aliceV2 none storeAB).2 = Except.ok aliceV2 ∧
    (getAll (create aliceV2 none storeAB).2).length = (getAll storeAB).length :=
  create_overwrites_id storeAB aliceV2 aliceU rfl rfl (by decide)

/-! The persisted JSON format. -/

theorem userObjShape_userToJson (u : User) : userObjShape (userToJson u) = true := rfl

/-- C8 counterexample: the JSON object persist serializes for the concrete
record aliceU has no key "createdAt" and no key "updatedAt"; its timestamp
strings sit under "created_at" and "updated_at" instead, so the persisted
array of record objects does not carry the keys the claim names. -/
theorem persist_key_counterexample :
    persistJson [aliceU] = Json.arr [userToJson aliceU] ∧
    jsonObjLookup (userToJson aliceU) "createdAt" = none ∧
    jsonObjLookup (userToJson aliceU) "updatedAt" = none ∧
    jsonObjLookup (userToJson aliceU) "created_at" = some (Json.str aliceU.created_at) ∧
    jsonObjLookup (userToJson aliceU) "updated_at" = some (Json.str aliceU.updated_at) :=
  ⟨rfl, rfl, rfl, rfl, rfl⟩

/-- C8 (amended): every successful persist writes the backing file as the
JSON array of the collection's record objects, each object carrying string
values under the keys id, name, email, and the timestamp keys created_at
and updated_at (snake_case, not createdAt/updatedAt). -/
theorem persist_format (s : Store) (hq : s.queue = none) :
    (enqueueWrite none s).1 = Except.ok () ∧
    (enqueueWrite none s).2.file = FileText.stored (getAll s) ∧
    persistJson (getAll s) = Json.arr ((getAll s).map userToJson) ∧
    ((getAll s).map userToJson).all userObjShape = true := by
  obtain ⟨us, f, q⟩ := s
  cases hq
  refine ⟨rfl, rfl, rfl, ?_⟩
  rw [List.all_eq_true]
  intro j hj
  obtain ⟨u, -, rfl⟩ := List.mem_map.mp hj
  exact userObjShape_userToJson u

/-- C8 amended-claim witness: the successful persist of storeAB writes the
stored array for its two records and both serialized objects have the
record shape, by persist_format. -/
theorem persist_format_witness :
    (enqueueWrite none storeAB).1 = Except.ok () ∧
    (enqueueWrite none storeAB).2.file = FileText.stored (getAll storeAB) ∧
    persistJson (getAll storeAB) = Json.arr ((getAll storeAB).map userToJson) ∧
    ((getAll storeAB).map userToJson).all userObjShape = true :=
  persist_format storeAB rfl

end JsonStore
